import Mathlib

/-!
Verification of the ECVRF-Ristretto255 core of the kamui repository
(`src/mangekyou/src/kamui_vrf.rs`) against its design specification.

Byte strings are modelled as `List Nat` with every element `< 256`.
Ristretto255 is a cyclic group of prime order
ℓ = 2^252 + 27742317777372353535851937790883648493; group elements are
modelled by their discrete logarithm with respect to a fixed generator,
i.e. by elements of `ZMod L`.  The canonical point codec and the SHA-512
compression primitive live outside the translated sources and are taken
as parameters of the model (`Model` below).
-/

namespace KamuiVrf

set_option maxRecDepth 8000

/-- The order ℓ of the Ristretto255 group (little-endian value of the
`order` table inside `negate_scalar` in `kamui_vrf.rs`). -/
def L : Nat := 2 ^ 252 + 27742317777372353535851937790883648493

instance : NeZero L := ⟨by decide⟩

/-- Little-endian value of a byte string. -/
def leVal : List Nat → Nat
  | [] => 0
  | b :: r => b + 256 * leVal r

/-- `k`-byte little-endian encoding of `n % 256^k`. -/
def leBytes : Nat → Nat → List Nat
  | 0, _ => []
  | k + 1, n => n % 256 :: leBytes k (n / 256)

/-- Discrete-logarithm representation of a Ristretto255 group element. -/
abbrev Pt := ZMod L

/-- The Ristretto basepoint encoded as bytes: constant `BASEPOINT_BYTES`
of `kamui_vrf.rs` (lines 11-16). -/
def BASEPOINT_BYTES : List Nat :=
  [0xe2, 0xf2, 0xae, 0x0a, 0x6a, 0xbc, 0x4e, 0x71,
   0xa8, 0x84, 0xa9, 0x61, 0xc5, 0x00, 0x51, 0x5f,
   0x58, 0xe3, 0x0b, 0x6a, 0xa5, 0x82, 0xdd, 0x8d,
   0xb6, 0xa6, 0x59, 0x45, 0xe0, 0x8d, 0x2d, 0x76]

/-- The 32-byte little-endian encoding of the group order: the `order`
table inside `negate_scalar` (`kamui_vrf.rs`, lines 506-511). -/
def orderBytes : List Nat :=
  [0xed, 0xd3, 0xf5, 0x5c, 0x1a, 0x63, 0x12, 0x58,
   0xd6, 0x9c, 0xf7, 0xa2, 0xde, 0xf9, 0xde, 0x14,
   0x00, 0x00, 0x00, 0x00, 0x00, 0x00, 0x00, 0x00,
   0x00, 0x00, 0x00, 0x00, 0x00, 0x00, 0x00, 0x10]

/- ## Scalar negation (`negate_scalar`, kamui_vrf.rs lines 501-526) -/

/-- One pass of the byte-wise subtract-with-borrow loop of `negate_scalar`:
`diff = order[i] as i16 - scalar.0[i] as i16 - carry`, emitting `diff + 256`
with borrow 1 when `diff < 0` and `diff` with borrow 0 otherwise. -/
def subLoop : List Nat → List Nat → Nat → List Nat
  | [], _, _ => []
  | o :: os, xs, carry =>
      if (o : Int) - (xs.headD 0 : Int) - (carry : Int) < 0 then
        ((o : Int) - (xs.headD 0 : Int) - (carry : Int) + 256).toNat ::
          subLoop os xs.tail 1
      else
        ((o : Int) - (xs.headD 0 : Int) - (carry : Int)).toNat ::
          subLoop os xs.tail 0

/-- `negate_scalar` (kamui_vrf.rs lines 501-526): byte-wise `L - x` with
borrow against the little-endian encoding of the group order. -/
def negate_scalar (x : List Nat) : List Nat := subLoop orderBytes x 0

/-- Modelled from the spec: §4.1 `scalar_add`, modular addition mod ℓ
(the operation itself has no counterpart under `src/`). -/
def scalar_add (a b : Nat) : Nat := (a + b) % L

/- ## Proof object and its codec (C6, C7) -/

/-- The proof object `ECVRFProof { gamma, c, s }` (kamui_vrf.rs 360-364);
`gamma` and `s` are 32-byte strings, `c` a 16-byte challenge. -/
structure ECVRFProof where
  gamma : List Nat
  c : List Nat
  s : List Nat
deriving DecidableEq

/-- Rust range slicing `&bytes[lo..hi]`: defined when `lo ≤ hi ≤ len`,
a panic otherwise. -/
def slice? (lo hi : Nat) (l : List Nat) : Option (List Nat) :=
  if lo ≤ hi ∧ hi ≤ l.length then some ((l.take hi).drop lo) else none

/-- Outcome of `ECVRFProof::from_bytes`: a decoded proof, the typed
wrong-length error (an `std::io::Error` with kind `InvalidInput`), or a
Rust panic (slice indexing out of bounds / `.unwrap()` on `Err`). -/
inductive FromBytesResult where
  | ok : ECVRFProof → FromBytesResult
  | lenError : FromBytesResult
  | panicked : FromBytesResult
deriving DecidableEq

/-- `ECVRFProof::from_bytes` (kamui_vrf.rs 367-387): guard
`bytes.len() <= 32 * 2`, then slices `bytes[0..32]`, `bytes[32..32+C_LEN]`
and `bytes[32+C_LEN..32+C_LEN+32]` (C_LEN = 16); out-of-range slicing
panics.  `Challenge::try_from_slice(c_bytes).unwrap()` (lines 275-283)
takes the first 16 bytes and panics when fewer remain. -/
def proof_from_bytes (bytes : List Nat) : FromBytesResult :=
  if bytes.length ≤ 32 * 2 then .lenError
  else
    match slice? 0 32 bytes, slice? 32 (32 + 16) bytes,
        slice? (32 + 16) (32 + 16 + 32) bytes with
    | some g, some cb, some s =>
        if cb.length < 16 then .panicked else .ok ⟨g, cb.take 16, s⟩
    | _, _, _ => .panicked

/-- `ECVRFProof::to_bytes` (kamui_vrf.rs 445-456): `encode(Γ) ‖ c ‖ s`
(Borsh serialization of `Challenge` writes its 16 raw bytes). -/
def proof_to_bytes (p : ECVRFProof) : List Nat := p.gamma ++ p.c ++ p.s

/- ## The ECVRF model (module `ecvrf` of kamui_vrf.rs) -/

/-- Modelled from the spec: the error enum `MangekyouError` (the crate's
`error.rs` is not among the translated sources).  §7 of the design lists
the first six kinds; `generalError` stands for the additional
`MangekyouError::GeneralOpaqueError` variant that `kamui_vrf.rs` uses. -/
inductive MangekyouError where
  | invalidPublicKey : MangekyouError
  | invalidPrivateKey : MangekyouError
  | invalidProof : MangekyouError
  | invalidInput : MangekyouError
  | challengeMismatch : MangekyouError
  | outputMismatch : MangekyouError
  | generalError : MangekyouError
deriving DecidableEq

/-- `Result<(), MangekyouError>`, the return type of `verify`. -/
inductive VerifyResult where
  | ok : VerifyResult
  | err : MangekyouError → VerifyResult
deriving DecidableEq

/-- The external primitives of the embedding: `sha512` models
`crate::hash::Sha512` (its implementation is not among the translated
sources; the spec treats SHA-512 as a standard primitive), and
`decodePoint` / `encodePoint` model the canonical Ristretto255 point
codec of curve25519-dalek.  A group element is represented by its
discrete logarithm, an element of `ZMod L`; `bpVal` is the element
`RISTRETTO_BASEPOINT_POINT`, whose canonical encoding is the constant
`BASEPOINT_BYTES`. -/
structure Model where
  sha512 : List Nat → List Nat
  decodePoint : List Nat → Option Pt
  encodePoint : Pt → List Nat
  bpVal : Pt

/-- `Scalar::from_canonical_bytes` as used by the
`TryFrom<&PodScalar> for Scalar` conversion of solana-zk-token-sdk:
succeeds exactly on 32-byte little-endian values < ℓ. -/
def scalarFromCanonical (b : List Nat) : Option Nat :=
  if b.length = 32 ∧ leVal b < L then some (leVal b) else none

/-- `solana_zk_token_sdk::curve25519::ristretto::multiply_ristretto`:
converts the `PodScalar` (canonical check) and decodes the point,
returning `None` when either conversion fails. -/
def multiply_ristretto (M : Model) (s P : List Nat) : Option (List Nat) :=
  match scalarFromCanonical s, M.decodePoint P with
  | some a, some Q => some (M.encodePoint ((a : Pt) * Q))
  | _, _ => none

/-- Fail-fast `Option` traversal of a list. -/
def mapOption {α β : Type} (f : α → Option β) : List α → Option (List β)
  | [] => some []
  | x :: xs =>
      match f x, mapOption f xs with
      | some y, some ys => some (y :: ys)
      | _, _ => none

/-- `multiscalar_multiply_ristretto` of solana-zk-token-sdk: Σ sᵢ·Pᵢ
after converting every scalar (canonical check) and decoding every
point; `None` when any conversion fails. -/
def multiscalar_multiply_ristretto (M : Model) (ss Ps : List (List Nat)) :
    Option (List Nat) :=
  match mapOption scalarFromCanonical ss, mapOption M.decodePoint Ps with
  | some as, some Qs =>
      some (M.encodePoint (List.zipWith (fun a Q => (a : Pt) * Q) as Qs).sum)
  | _, _ => none

/-- The DST constant (kamui_vrf.rs line 133): the 49 ASCII bytes of
"ECVRF_ristretto255_XMD:SHA-512_R255MAP_RO_sol_vrf". -/
def DST : List Nat :=
  [69, 67, 86, 82, 70, 95, 114, 105, 115, 116, 114, 101, 116, 116, 111,
   50, 53, 53, 95, 88, 77, 68, 58, 83, 72, 65, 45, 53, 49, 50, 95, 82,
   50, 53, 53, 77, 65, 80, 95, 82, 79, 95, 115, 111, 108, 95, 118, 114,
   102]

/-- `SUITE_STRING = b"sol_vrf"` (kamui_vrf.rs line 123). -/
def SUITE_STRING : List Nat := [115, 111, 108, 95, 118, 114, 102]

/-- The two-round hash of `ecvrf_encode_to_curve_solana`
(kamui_vrf.rs 148-165): h1 = SHA512(DST ‖ 0x01 ‖ pk ‖ alpha),
h2 = SHA512(DST ‖ 0x02 ‖ h1), uniform_bytes = h1[..32] ‖ h2[..32]. -/
def ecvrf_uniform_bytes (M : Model) (pk alpha : List Nat) : List Nat :=
  (M.sha512 (DST ++ [0x01] ++ pk ++ alpha)).take 32 ++
    (M.sha512 (DST ++ [0x02] ++
      M.sha512 (DST ++ [0x01] ++ pk ++ alpha))).take 32

/-- First candidate point bytes (kamui_vrf.rs 167-172): the first 32
bytes of `uniform_bytes`, with the top bit of byte 31 cleared
(`point_bytes[31] &= 0b0111_1111`, i.e. reduction mod 128). -/
def initial_point_bytes (M : Model) (pk alpha : List Nat) : List Nat :=
  ((ecvrf_uniform_bytes M pk alpha).take 32).set 31
    (((ecvrf_uniform_bytes M pk alpha).take 32).getD 31 0 % 128)

/-- The validity test of the retry loop (kamui_vrf.rs line 178):
`multiply_ristretto(&PodScalar([1; 32]), &point).is_some()`. -/
def point_is_valid (M : Model) (pb : List Nat) : Bool :=
  (multiply_ristretto M (List.replicate 32 1) pb).isSome

/-- `point_bytes[0] = point_bytes[0].wrapping_add(1)`
(kamui_vrf.rs line 182). -/
def incByte0 (pb : List Nat) : List Nat := pb.set 0 ((pb.getD 0 0 + 1) % 256)

/-- The retry loop of `ecvrf_encode_to_curve_solana`
(kamui_vrf.rs 174-187): at most 256 attempts, then the
`BASEPOINT_BYTES` fallback. -/
def encodeLoop (M : Model) : Nat → List Nat → List Nat
  | 0, _ => BASEPOINT_BYTES
  | fuel + 1, pb =>
      if point_is_valid M pb then pb else encodeLoop M fuel (incByte0 pb)

/-- `ECVRFPublicKey::ecvrf_encode_to_curve_solana` (kamui_vrf.rs 147-188). -/
def ecvrf_encode_to_curve_solana (M : Model) (pk alpha : List Nat) :
    List Nat :=
  encodeLoop M 256 (initial_point_bytes M pk alpha)

/- ## Nonce, challenge, prove and verify -/

/-- `ECVRFPrivateKey::ecvrf_nonce_generation` (kamui_vrf.rs 220-231):
hash the reduced secret scalar
(`Scalar::from_bytes_mod_order(sk).to_bytes()`), keep bytes 32..64 of
the digest, hash them followed by `h_string`, and reduce the 64-byte
digest mod ℓ (`Scalar::from_bytes_mod_order_wide`). -/
def ecvrf_nonce_generation (M : Model) (sk h_string : List Nat) : List Nat :=
  leBytes 32 (leVal (M.sha512
    (((M.sha512 (leBytes 32 (leVal sk % L))).drop 32).take 32 ++ h_string))
      % L)

/-- `ecvrf_challenge_generation` (kamui_vrf.rs 255-268): the 16-byte
truncation of SHA512(SUITE_STRING ‖ 0x02 ‖ P₁ ‖ … ‖ P₅ ‖ 0x00). -/
def ecvrf_challenge_generation (M : Model) (points : List (List Nat)) :
    List Nat :=
  (M.sha512 (SUITE_STRING ++ [0x02] ++ points.flatten ++ [0x00])).take 16

/-- `ECVRFKeyPair` (kamui_vrf.rs 249-252): the 32-byte public-key and
secret-key strings. -/
structure ECVRFKeyPair where
  pk : List Nat
  sk : List Nat

/-- `From<ECVRFPrivateKey> for ECVRFKeyPair` (kamui_vrf.rs 350-358):
pk = encode(RISTRETTO_BASEPOINT_POINT · (sk mod ℓ)). -/
def keypair_from_sk (M : Model) (sk : List Nat) : ECVRFKeyPair :=
  ⟨M.encodePoint ((leVal sk : Pt) * M.bpVal), sk⟩

/-- `ECVRFKeyPair::prove` (kamui_vrf.rs 319-347).  The `.unwrap()` calls
on `multiply_ristretto` are modelled in `Option`: a `none` result is a
Rust panic. -/
def ecvrf_prove (M : Model) (kp : ECVRFKeyPair) (alpha : List Nat) :
    Option ECVRFProof :=
  (multiply_ristretto M kp.sk
      (ecvrf_encode_to_curve_solana M kp.pk alpha)).bind fun gamma =>
    (multiply_ristretto M (ecvrf_nonce_generation M kp.sk alpha)
        BASEPOINT_BYTES).bind fun u =>
      (multiply_ristretto M (ecvrf_nonce_generation M kp.sk alpha)
          (ecvrf_encode_to_curve_solana M kp.pk alpha)).bind fun v =>
        some ⟨gamma,
          ecvrf_challenge_generation M
            [kp.pk, ecvrf_encode_to_curve_solana M kp.pk alpha, gamma, u, v],
          leBytes 32
            ((leVal (ecvrf_nonce_generation M kp.sk alpha) % L +
              (leVal (ecvrf_challenge_generation M
                  [kp.pk, ecvrf_encode_to_curve_solana M kp.pk alpha,
                    gamma, u, v] ++ List.replicate 16 0) % L) *
                (leVal kp.sk % L)) % L)⟩

/-- `ECVRFPublicKey::valid` (kamui_vrf.rs 190-194): false iff every byte
of the encoding is zero. -/
def pk_valid (pk : List Nat) : Bool := !(pk.all (· == 0))

/-- `ECVRFProof::verify` (kamui_vrf.rs 392-433). -/
def ecvrf_verify (M : Model) (pk alpha : List Nat) (p : ECVRFProof) :
    VerifyResult :=
  if !(pk_valid pk) then .err .invalidInput
  else
    match multiscalar_multiply_ristretto M
        [p.s, negate_scalar (p.c ++ List.replicate 16 0)]
        [BASEPOINT_BYTES, pk] with
    | none => .err .invalidInput
    | some u_point =>
        match multiscalar_multiply_ristretto M
            [p.s, negate_scalar (p.c ++ List.replicate 16 0)]
            [ecvrf_encode_to_curve_solana M pk alpha, p.gamma] with
        | none => .err .invalidInput
        | some v_point =>
            if ecvrf_challenge_generation M
                [pk, ecvrf_encode_to_curve_solana M pk alpha, p.gamma,
                  u_point, v_point] = p.c then .ok
            else .err .generalError

/- ## Concrete model instantiations for witnesses and counterexamples -/

/-- A constant 64-byte hash (used where the hash values are irrelevant). -/
def cSha : List Nat → List Nat := fun _ => List.replicate 64 1

/-- A hash that copies its input, padded or truncated to 64 bytes (used
where distinct inputs must give distinct digests). -/
def idSha : List Nat → List Nat := fun m => (m ++ List.replicate 64 0).take 64

/-- A concrete point codec: a 32-byte string decodes to the class of its
little-endian value; an element encodes to the 32-byte little-endian
string of its canonical value. -/
def cDec : List Nat → Option Pt := fun b =>
  if b.length = 32 then some ((leVal b : Pt)) else none

def cEnc : Pt → List Nat := fun x => leBytes 32 x.val

/-- Concrete model with the constant hash. -/
def cModel : Model := ⟨cSha, cDec, cEnc, (leVal BASEPOINT_BYTES : Pt)⟩

/-- Concrete model with the input-copying hash. -/
def idModel : Model := ⟨idSha, cDec, cEnc, (leVal BASEPOINT_BYTES : Pt)⟩

/-- Concrete model whose decoder rejects every encoding. -/
def noneModel : Model := ⟨cSha, fun _ => none, cEnc, 0⟩

/-- Modelled from the spec: §4.2 expand_message_xmd with SHA-512 for
len = 64 and the fixed DST (written to state C2 as the spec words it):
b₀ = SHA512(Z_pad ‖ msg ‖ I2OSP(64, 2) ‖ DST ‖ I2OSP(49, 1)),
b₁ = SHA512(b₀ ‖ 0x01 ‖ DST ‖ I2OSP(49, 1)),
b₂ = SHA512((b₀ xor b₁) ‖ 0x02 ‖ DST ‖ I2OSP(49, 1)),
output = b₁[0..32] ‖ b₂[0..32]. -/
def spec_expand_message_xmd (sha512 : List Nat → List Nat) (msg : List Nat) :
    List Nat :=
  (sha512 ((sha512 (List.replicate 128 0 ++ msg ++ [0, 64] ++ DST ++ [49]))
      ++ [0x01] ++ DST ++ [49])).take 32 ++
    (sha512 ((List.zipWith (fun a b => a ^^^ b)
        (sha512 (List.replicate 128 0 ++ msg ++ [0, 64] ++ DST ++ [49]))
        (sha512 ((sha512 (List.replicate 128 0 ++ msg ++ [0, 64] ++ DST
          ++ [49])) ++ [0x01] ++ DST ++ [49])))
      ++ [0x02] ++ DST ++ [49])).take 32

/-- The nonce computation as claim C3 words it: trunc is the second half
of SHA512 of the raw secret-key bytes, and the second hash input is
`trunc ‖ encode(H)` with H = encode_to_curve(Y, alpha) (written to state
C3 as the spec words it, for comparison with
`ecvrf_nonce_generation`). -/
def spec_nonce_from_point (M : Model) (sk pk alpha : List Nat) : List Nat :=
  leBytes 32 (leVal (M.sha512
    (((M.sha512 sk).drop 32).take 32 ++
      ecvrf_encode_to_curve_solana M pk alpha)) % L)

/-- Sanity: the `order` table of `negate_scalar` encodes ℓ. -/
theorem leVal_orderBytes : leVal orderBytes = L := by decide

/- ## Basic lemmas about `leVal` and `leBytes` -/
theorem leVal_append (a b : List Nat) :
    leVal (a ++ b) = leVal a + 256 ^ a.length * leVal b := by
  induction a with
  | nil => simp [leVal]
  | cons x xs ih =>
      simp [leVal, ih, List.length_cons, pow_succ]
      ring

theorem leVal_replicate_zero (n : Nat) : leVal (List.replicate n 0) = 0 := by
  induction n with
  | zero => rfl
  | succ n ih => simp [List.replicate, leVal, ih]

theorem leVal_lt (l : List Nat) (h : ∀ b ∈ l, b < 256) :
    leVal l < 256 ^ l.length := by
  induction l with
  | nil => simp [leVal]
  | cons x xs ih =>
      have hx : x < 256 := h x (by simp)
      have hxs := ih (fun b hb => h b (by simp [hb]))
      simp only [leVal, List.length_cons, pow_succ]
      calc x + 256 * leVal xs < 256 + 256 * leVal xs := by omega
        _ ≤ 256 * (leVal xs + 1) := by ring_nf; omega
        _ ≤ 256 * 256 ^ xs.length := by
              have : leVal xs + 1 ≤ 256 ^ xs.length := hxs
              exact Nat.mul_le_mul_left _ this
        _ = 256 ^ xs.length * 256 := by ring

theorem leBytes_length (k n : Nat) : (leBytes k n).length = k := by
  induction k generalizing n with
  | zero => rfl
  | succ k ih => simp [leBytes, ih]

theorem leBytes_mem_lt (k n : Nat) : ∀ b ∈ leBytes k n, b < 256 := by
  induction k generalizing n with
  | zero => simp [leBytes]
  | succ k ih =>
      intro b hb
      simp only [leBytes, List.mem_cons] at hb
      rcases hb with h | h
      · omega
      · exact ih _ b h

theorem leVal_leBytes (k n : Nat) : leVal (leBytes k n) = n % 256 ^ k := by
  induction k generalizing n with
  | zero => simp [leBytes, leVal, Nat.mod_one]
  | succ k ih =>
      simp only [leBytes, leVal, ih]
      rw [pow_succ', Nat.mod_mul]

theorem leVal_leBytes_of_lt {k n : Nat} (h : n < 256 ^ k) :
    leVal (leBytes k n) = n := by
  rw [leVal_leBytes, Nat.mod_eq_of_lt h]

theorem L_lt_pow : L < 256 ^ 32 := by decide

/-- Casting a reduced natural into `ZMod L` forgets the reduction. -/
theorem castModL (a : Nat) : ((a % L : Nat) : Pt) = (a : Pt) := by
  conv_rhs => rw [← Nat.div_add_mod a L]
  push_cast [ZMod.natCast_self]
  ring

theorem subLoop_length (o : List Nat) :
    ∀ (x : List Nat) (b : Nat), (subLoop o x b).length = o.length := by
  induction o with
  | nil => intro x b; rfl
  | cons o0 os ih =>
      intro x b
      simp only [subLoop]
      split <;> simp [ih]

theorem subLoop_leVal (o : List Nat) (ho : ∀ v ∈ o, v < 256) :
    ∀ (x : List Nat) (b : Nat), x.length = o.length →
      (∀ v ∈ x, v < 256) → b ≤ 1 → leVal x + b ≤ leVal o →
      leVal (subLoop o x b) = leVal o - leVal x - b := by
  induction o with
  | nil =>
      intro x b hlen _ _ hle
      have hx : x = [] := List.eq_nil_of_length_eq_zero hlen
      subst hx
      have hb0 : b = 0 := by simp only [leVal] at hle; omega
      subst hb0
      simp [subLoop, leVal]
  | cons o0 os ih =>
      intro x b hlen hb hble hle
      cases x with
      | nil => simp at hlen
      | cons x0 xs =>
          have ho0 : o0 < 256 := ho o0 (by simp)
          have hos : ∀ v ∈ os, v < 256 := fun v hv => ho v (by simp [hv])
          have hx0 : x0 < 256 := hb x0 (by simp)
          have hxs : ∀ v ∈ xs, v < 256 := fun v hv => hb v (by simp [hv])
          have hlen' : xs.length = os.length := by simpa using hlen
          simp only [leVal] at hle
          simp only [subLoop, List.headD_cons, List.tail_cons]
          split
          · next hneg =>
              have hXO : leVal xs + 1 ≤ leVal os := by omega
              have hrec := ih hos xs 1 hlen' hxs (by omega) hXO
              simp only [leVal, hrec]
              omega
          · next hpos =>
              have hXO : leVal xs + 0 ≤ leVal os := by omega
              have hrec := ih hos xs 0 hlen' hxs (by omega) hXO
              simp only [leVal, hrec]
              omega

/-- Value of `negate_scalar` on canonical inputs `x ≤ ℓ` (as a byte string
of length 32): it computes exactly `ℓ - x`. -/
theorem negate_scalar_leVal (x : List Nat) (hl : x.length = 32)
    (hb : ∀ v ∈ x, v < 256) (hx : leVal x ≤ L) :
    leVal (negate_scalar x) = L - leVal x := by
  have h := subLoop_leVal orderBytes (by decide) x 0 (by rw [hl]; rfl) hb
      (by omega) (by rw [leVal_orderBytes]; omega)
  rw [negate_scalar, h, leVal_orderBytes]
  omega

theorem negate_scalar_length (x : List Nat) : (negate_scalar x).length = 32 := by
  rw [negate_scalar, subLoop_length]; rfl

/-- C8 counterexample: on the canonical input x = 0 (the all-zero 32-byte
encoding), `negate_scalar` returns the little-endian bytes of ℓ itself —
a non-canonical representative — and not the canonical all-zero encoding,
contradicting `scalar_negate(0) == 0`. -/
theorem C8_negate_zero_counterexample :
    negate_scalar (List.replicate 32 0) = orderBytes ∧
    negate_scalar (List.replicate 32 0) ≠ List.replicate 32 0 ∧
    ¬ leVal (negate_scalar (List.replicate 32 0)) < L := by decide

/-- C8 (amended): for canonical x, x + negate_scalar x ≡ 0 (mod ℓ); for
canonical x ≠ 0 the result is the canonical representative ℓ − x; but
`negate_scalar 0` is the (non-canonical) encoding of ℓ itself. -/
theorem C8_negate_scalar_amended (x : List Nat) (hl : x.length = 32)
    (hb : ∀ v ∈ x, v < 256) (hx : leVal x < L) :
    scalar_add (leVal x) (leVal (negate_scalar x)) = 0 ∧
    (leVal x ≠ 0 → leVal (negate_scalar x) = L - leVal x ∧
      leVal (negate_scalar x) < L) ∧
    negate_scalar (List.replicate 32 0) = orderBytes := by
  have hv := negate_scalar_leVal x hl hb (by omega)
  refine ⟨?_, fun h0 => ⟨hv, by omega⟩, by decide⟩
  rw [hv, scalar_add]
  have : leVal x + (L - leVal x) = L := by omega
  rw [this, Nat.mod_self]

theorem C8_negate_scalar_amended_witness :
    scalar_add (leVal (5 :: List.replicate 31 0))
      (leVal (negate_scalar (5 :: List.replicate 31 0))) = 0 ∧
    (leVal (5 :: List.replicate 31 0) ≠ 0 →
      leVal (negate_scalar (5 :: List.replicate 31 0)) =
        L - leVal (5 :: List.replicate 31 0) ∧
      leVal (negate_scalar (5 :: List.replicate 31 0)) < L) ∧
    negate_scalar (List.replicate 32 0) = orderBytes :=
  C8_negate_scalar_amended (5 :: List.replicate 31 0) (by decide)
    (by decide) (by decide)

/-- C6: `from_bytes` panics (slice index out of range) on a 72-byte input
instead of returning a typed error, and accepts an 81-byte input (using
only the first 80 bytes) instead of rejecting it; only lengths ≤ 64 get
the typed wrong-length error. -/
theorem C6_from_bytes_panics :
    proof_from_bytes (List.replicate 72 0) = .panicked ∧
    proof_from_bytes (List.replicate 81 0) =
      .ok ⟨List.replicate 32 0, List.replicate 16 0, List.replicate 32 0⟩ ∧
    proof_from_bytes (List.replicate 64 0) = .lenError := by decide

/-- C7: `to_bytes` emits exactly 80 bytes in the order Γ ‖ c ‖ s and
`from_bytes` inverts it. -/
theorem C7_codec_roundtrip (p : ECVRFProof) (hg : p.gamma.length = 32)
    (hc : p.c.length = 16) (hs : p.s.length = 32) :
    (proof_to_bytes p).length = 80 ∧
    proof_from_bytes (proof_to_bytes p) = .ok p := by
  obtain ⟨g, c, s⟩ := p
  simp only at hg hc hs
  have hl : (g ++ c ++ s).length = 80 := by
    rw [List.length_append, List.length_append]; omega
  have hbytes : proof_to_bytes ⟨g, c, s⟩ = g ++ c ++ s := rfl
  refine ⟨by rw [hbytes, hl], ?_⟩
  have h1 : slice? 0 32 (g ++ c ++ s) = some g := by
    rw [slice?, if_pos ⟨by omega, by omega⟩, List.drop_zero,
      List.append_assoc, List.take_left' hg]
  have h2 : slice? 32 (32 + 16) (g ++ c ++ s) = some c := by
    rw [slice?, if_pos ⟨by omega, by omega⟩, List.drop_take,
      List.append_assoc, List.drop_left' hg]
    norm_num [List.take_left' hc]
  have h3 : slice? (32 + 16) (32 + 16 + 32) (g ++ c ++ s) = some s := by
    rw [slice?, if_pos ⟨by omega, by omega⟩]
    have h80 : (32 + 16 + 32 : Nat) = (g ++ c ++ s).length := by omega
    have h48 : ((g ++ c).length : Nat) = 32 + 16 := by
      rw [List.length_append]; omega
    rw [h80, List.take_length, List.drop_left' h48]
  have htake : c.take 16 = c := by rw [← hc, List.take_length]
  rw [hbytes, proof_from_bytes, if_neg (by omega)]
  rw [h1, h2, h3]
  simp [htake, hc]

theorem C7_codec_roundtrip_witness :
    (proof_to_bytes ⟨List.replicate 32 0, List.replicate 16 0,
        List.replicate 32 0⟩).length = 80 ∧
    proof_from_bytes (proof_to_bytes ⟨List.replicate 32 0,
        List.replicate 16 0, List.replicate 32 0⟩) =
      .ok ⟨List.replicate 32 0, List.replicate 16 0, List.replicate 32 0⟩ :=
  C7_codec_roundtrip _ (by decide) (by decide) (by decide)

/- ## Loop lemmas for encode-to-curve -/
theorem encodeLoop_valid_or_basepoint (M : Model) :
    ∀ (fuel : Nat) (pb : List Nat),
      encodeLoop M fuel pb = BASEPOINT_BYTES ∨
        (point_is_valid M (encodeLoop M fuel pb) = true ∧
          ∃ i < fuel, encodeLoop M fuel pb = incByte0^[i] pb) := by
  intro fuel
  induction fuel with
  | zero => exact fun pb => Or.inl rfl
  | succ n ih =>
      intro pb
      simp only [encodeLoop]
      by_cases h : point_is_valid M pb
      · rw [if_pos h]
        exact Or.inr ⟨h, 0, Nat.succ_pos n, rfl⟩
      · rw [if_neg h]
        rcases ih (incByte0 pb) with h1 | ⟨h1, i, hi, h2⟩
        · exact Or.inl h1
        · refine Or.inr ⟨h1, i + 1, by omega, ?_⟩
          rw [Function.iterate_succ_apply]
          exact h2

theorem encodeLoop_fallback (M : Model) :
    ∀ (fuel : Nat) (pb : List Nat),
      (∀ i < fuel, point_is_valid M (incByte0^[i] pb) = false) →
      encodeLoop M fuel pb = BASEPOINT_BYTES := by
  intro fuel
  induction fuel with
  | zero => exact fun pb _ => rfl
  | succ n ih =>
      intro pb h
      have h0 := h 0 (Nat.succ_pos n)
      simp only [Function.iterate_zero, id_eq] at h0
      simp only [encodeLoop]
      rw [if_neg (by simp [h0])]
      exact ih (incByte0 pb) (fun i hi => by
        have hsucc := h (i + 1) (by omega)
        rwa [Function.iterate_succ_apply] at hsucc)

theorem multiply_ristretto_isSome {M : Model} {s P : List Nat}
    (h : (multiply_ristretto M s P).isSome = true) :
    (∃ a, scalarFromCanonical s = some a) ∧ ∃ Q, M.decodePoint P = some Q := by
  rw [multiply_ristretto] at h
  rcases h1 : scalarFromCanonical s with _ | a <;>
    rcases h2 : M.decodePoint P with _ | Q <;>
      rw [h1, h2] at h <;> simp at h ⊢

theorem encodeLoop_decodable (M : Model)
    (hbp : M.decodePoint BASEPOINT_BYTES = some M.bpVal) :
    ∀ (fuel : Nat) (pb : List Nat),
      ∃ h, M.decodePoint (encodeLoop M fuel pb) = some h := by
  intro fuel
  induction fuel with
  | zero => exact fun pb => ⟨M.bpVal, hbp⟩
  | succ n ih =>
      intro pb
      simp only [encodeLoop]
      by_cases hv : point_is_valid M pb
      · rw [if_pos hv]
        rw [point_is_valid] at hv
        exact (multiply_ristretto_isSome hv).2
      · rw [if_neg hv]
        exact ih (incByte0 pb)

/- ## C10: totality of encode-to-curve -/

/-- C10: the retry loop of `ecvrf_encode_to_curve_solana` makes at most
256 attempts: the result is either one of the 256 candidate byte
strings (then accepted by the validity test) or the `BASEPOINT_BYTES`
fallback; and when every one of the 256 candidates fails the validity
test, the fallback constant is returned. -/
theorem C10_encode_to_curve_total (M : Model) (pk alpha : List Nat) :
    (ecvrf_encode_to_curve_solana M pk alpha = BASEPOINT_BYTES ∨
      ∃ i < 256, ecvrf_encode_to_curve_solana M pk alpha =
        incByte0^[i] (initial_point_bytes M pk alpha) ∧
        point_is_valid M (ecvrf_encode_to_curve_solana M pk alpha) = true) ∧
    ((∀ i < 256, point_is_valid M
        (incByte0^[i] (initial_point_bytes M pk alpha)) = false) →
      ecvrf_encode_to_curve_solana M pk alpha = BASEPOINT_BYTES) := by
  constructor
  · rcases encodeLoop_valid_or_basepoint M 256 (initial_point_bytes M pk alpha)
        with h | ⟨hv, i, hi, he⟩
    · exact Or.inl h
    · exact Or.inr ⟨i, hi, he, hv⟩
  · exact encodeLoop_fallback M 256 _

theorem C10_encode_to_curve_total_witness :
    ecvrf_encode_to_curve_solana noneModel (List.replicate 32 0) [] =
      BASEPOINT_BYTES := by
  have hval : ∀ pb, point_is_valid noneModel pb = false := fun pb => by
    rw [point_is_valid, multiply_ristretto]
    rcases scalarFromCanonical (List.replicate 32 1) with _ | a <;> rfl
  exact (C10_encode_to_curve_total noneModel (List.replicate 32 0) []).2
    (fun i _ => hval _)

/- ## C2: encode-to-curve is not expand_message_xmd -/

/-- C2 counterexample: the 64 "uniform" bytes computed inside
`ecvrf_encode_to_curve_solana` do not equal
expand_message_xmd(SHA-512, msg = pk ‖ alpha, len = 64) as specified in
§4.2 (exhibited at a concrete hash instantiation; the byte strings fed
to the hash differ — the code never hashes the 128-byte Z_pad block). -/
theorem C2_not_xmd_counterexample :
    ecvrf_uniform_bytes idModel (List.replicate 32 0) [] ≠
      spec_expand_message_xmd idSha (List.replicate 32 0 ++ []) := by decide

/-- C2 (amended): `ecvrf_encode_to_curve_solana` instead derives its
candidate from two DST-prefixed SHA-512 rounds and retries; the returned
H is always a decodable (valid) Ristretto encoding — either a candidate
accepted by the `multiply_ristretto` test or the basepoint constant. -/
theorem C2_encode_to_curve_amended (M : Model)
    (hbp : M.decodePoint BASEPOINT_BYTES = some M.bpVal)
    (pk alpha : List Nat) :
    ∃ h, M.decodePoint (ecvrf_encode_to_curve_solana M pk alpha) = some h :=
  encodeLoop_decodable M hbp 256 _

theorem C2_encode_to_curve_amended_witness :
    ∃ h, cModel.decodePoint
      (ecvrf_encode_to_curve_solana cModel (List.replicate 32 0) []) =
        some h :=
  C2_encode_to_curve_amended cModel (by decide) (List.replicate 32 0) []

/- ## C3: the nonce hashes alpha, not encode(H) -/

/-- C3 counterexample: the nonce actually derived in `prove` — namely
`ecvrf_nonce_generation(sk, alpha)`, since `prove` passes `alpha_string`
(kamui_vrf.rs line 322) — differs from the claimed
scalar_from_wide(SHA512(trunc ‖ encode(H))) at a concrete instance with
a canonical secret key. -/
theorem C3_nonce_counterexample :
    ecvrf_nonce_generation idModel (leBytes 32 1) [] ≠
      spec_nonce_from_point idModel (leBytes 32 1)
        (keypair_from_sk idModel (leBytes 32 1)).pk [] := by decide

/-- C3 (amended): in `prove`, the scalar response satisfies
s = k + c·sk (mod ℓ) where the nonce k is
scalar_from_wide(SHA512(trunc ‖ alpha)) — the hash input ends with the
raw input alpha, not with encode(H) — and trunc is the second half of
SHA512 of the reduced secret scalar. -/
theorem C3_nonce_uses_alpha_amended (M : Model) (kp : ECVRFKeyPair)
    (alpha : List Nat) (p : ECVRFProof)
    (hp : ecvrf_prove M kp alpha = some p) :
    p.s = leBytes 32
      ((leVal (M.sha512
          (((M.sha512 (leBytes 32 (leVal kp.sk % L))).drop 32).take 32
            ++ alpha)) % L +
        (leVal (p.c ++ List.replicate 16 0) % L) * (leVal kp.sk % L)) % L) := by
  rw [ecvrf_prove] at hp
  rcases hg : multiply_ristretto M kp.sk
      (ecvrf_encode_to_curve_solana M kp.pk alpha) with _ | gamma <;>
    rw [hg] at hp
  · simp at hp
  rcases hu : multiply_ristretto M (ecvrf_nonce_generation M kp.sk alpha)
      BASEPOINT_BYTES with _ | u <;> rw [hu] at hp
  · simp at hp
  rcases hv : multiply_ristretto M (ecvrf_nonce_generation M kp.sk alpha)
      (ecvrf_encode_to_curve_solana M kp.pk alpha) with _ | v <;>
    rw [hv] at hp
  · simp at hp
  simp only [Option.some_bind, Option.some.injEq] at hp
  subst hp
  simp only
  have hk : leVal (ecvrf_nonce_generation M kp.sk alpha) % L =
      leVal (M.sha512
        (((M.sha512 (leBytes 32 (leVal kp.sk % L))).drop 32).take 32
          ++ alpha)) % L := by
    rw [ecvrf_nonce_generation, leVal_leBytes_of_lt
      (lt_trans (Nat.mod_lt _ (by decide)) L_lt_pow),
      Nat.mod_mod_of_dvd _ dvd_rfl]
  rw [hk]

theorem C3_nonce_uses_alpha_amended_witness :
    ((ecvrf_prove cModel (keypair_from_sk cModel (leBytes 32 1)) [5]).getD
        ⟨[], [], []⟩).s = leBytes 32
      ((leVal (cModel.sha512
          (((cModel.sha512 (leBytes 32
            (leVal (keypair_from_sk cModel (leBytes 32 1)).sk % L))).drop
              32).take 32 ++ [5])) % L +
        (leVal (((ecvrf_prove cModel (keypair_from_sk cModel (leBytes 32 1))
            [5]).getD ⟨[], [], []⟩).c ++ List.replicate 16 0) % L) *
          (leVal (keypair_from_sk cModel (leBytes 32 1)).sk % L)) % L) :=
  C3_nonce_uses_alpha_amended cModel (keypair_from_sk cModel (leBytes 32 1))
    [5] _ (by decide)

/- ## C9: a non-canonical secret scalar makes prove panic -/

/-- C9: for any 32-byte secret key whose value is ≥ ℓ (non-canonical),
`prove` reaches `.unwrap()` on the `None` returned by
`multiply_ristretto` (whose scalar conversion rejects non-canonical
encodings) — a Rust panic, modelled as `none` — rather than reducing the
scalar mod ℓ on first use. -/
theorem C9_noncanonical_sk_panics (M : Model) (sk alpha : List Nat)
    (hsk : L ≤ leVal sk) :
    ecvrf_prove M (keypair_from_sk M sk) alpha = none := by
  have hs : scalarFromCanonical sk = none := by
    rw [scalarFromCanonical, if_neg]
    rintro ⟨-, h2⟩
    omega
  rw [ecvrf_prove]
  show (multiply_ristretto M sk _).bind _ = none
  rw [multiply_ristretto, hs]
  rfl

theorem C9_noncanonical_sk_panics_witness :
    ecvrf_prove cModel (keypair_from_sk cModel (List.replicate 32 255)) [] =
      none :=
  C9_noncanonical_sk_panics cModel (List.replicate 32 255) [] (by decide)

/- ## C5: identity / undecodable public keys -/

/-- C5 counterexample: `verify` with the all-zero public key rejects with
`MangekyouError::InvalidInput` (kamui_vrf.rs line 398), which is not the
`InvalidPublicKey` kind the claim names. -/
theorem C5_pk_error_counterexample :
    ecvrf_verify cModel (List.replicate 32 0) []
      ⟨List.replicate 32 0, List.replicate 16 0, List.replicate 32 0⟩ =
        .err .invalidInput ∧
    VerifyResult.err .invalidInput ≠ VerifyResult.err .invalidPublicKey := by
  decide

/-- C5 (amended): `verify` rejects an all-zero (identity) public key —
via the `valid()` check — and any undecodable public-key encoding — via
the failing multiscalar multiplication — but in both cases with the
error `InvalidInput`, not `InvalidPublicKey`. -/
theorem C5_invalid_pk_rejected_amended (M : Model) (pk alpha : List Nat)
    (p : ECVRFProof)
    (h : pk = List.replicate 32 0 ∨ M.decodePoint pk = none) :
    ecvrf_verify M pk alpha p = .err .invalidInput := by
  by_cases hz : (!(pk_valid pk)) = true
  · rw [ecvrf_verify, if_pos hz]
  · rcases h with h | h
    · subst h
      exact absurd (by decide) hz
    · rw [ecvrf_verify, if_neg hz]
      have hpk1 : mapOption M.decodePoint [pk] = none := by
        rw [mapOption, h]
      have hpts : mapOption M.decodePoint [BASEPOINT_BYTES, pk] = none := by
        rw [mapOption, hpk1]
        rcases M.decodePoint BASEPOINT_BYTES with _ | q <;> rfl
      have hm : multiscalar_multiply_ristretto M
          [p.s, negate_scalar (p.c ++ List.replicate 16 0)]
          [BASEPOINT_BYTES, pk] = none := by
        rw [multiscalar_multiply_ristretto, hpts]
        rcases mapOption scalarFromCanonical
            [p.s, negate_scalar (p.c ++ List.replicate 16 0)] with _ | as <;>
          rfl
      rw [hm]

theorem C5_invalid_pk_rejected_amended_witness :
    ecvrf_verify cModel (List.replicate 32 0) [1] ⟨[], [], []⟩ =
      .err .invalidInput :=
  C5_invalid_pk_rejected_amended cModel (List.replicate 32 0) [1] ⟨[], [], []⟩
    (Or.inl rfl)

/- ## C4: invalid Γ or non-canonical s -/

/-- C4 counterexample: a proof whose `s` is non-canonical (all bytes
0xff) is rejected, but with `MangekyouError::InvalidInput` (the error
mapped from the failing multiscalar multiplication, kamui_vrf.rs
line 412), not with `InvalidProof` as claimed. -/
theorem C4_error_counterexample :
    ecvrf_verify cModel BASEPOINT_BYTES []
      ⟨List.replicate 32 0, List.replicate 16 0, List.replicate 32 255⟩ =
        .err .invalidInput ∧
    VerifyResult.err .invalidInput ≠ VerifyResult.err .invalidProof := by
  decide

/-- C4 (amended): `verify` rejects every proof whose Γ is not a valid
Ristretto encoding and every proof whose s is non-canonical (≥ ℓ) or not
32 bytes — never accepting them — but the error returned is
`InvalidInput`, not `InvalidProof`. -/
theorem C4_bad_gamma_or_s_rejected_amended (M : Model) (pk alpha : List Nat)
    (p : ECVRFProof)
    (h : scalarFromCanonical p.s = none ∨ M.decodePoint p.gamma = none) :
    ecvrf_verify M pk alpha p = .err .invalidInput := by
  by_cases hz : (!(pk_valid pk)) = true
  · rw [ecvrf_verify, if_pos hz]
  · rw [ecvrf_verify, if_neg hz]
    rcases h with h | h
    · have hss : mapOption scalarFromCanonical
          [p.s, negate_scalar (p.c ++ List.replicate 16 0)] = none := by
        rw [mapOption, h]
      have hm1 : multiscalar_multiply_ristretto M
          [p.s, negate_scalar (p.c ++ List.replicate 16 0)]
          [BASEPOINT_BYTES, pk] = none := by
        rw [multiscalar_multiply_ristretto, hss]
      rw [hm1]
    · rcases hm1 : multiscalar_multiply_ristretto M
          [p.s, negate_scalar (p.c ++ List.replicate 16 0)]
          [BASEPOINT_BYTES, pk] with _ | u
      · rfl
      have hga : mapOption M.decodePoint [p.gamma] = none := by
        rw [mapOption, h]
      have hpts : mapOption M.decodePoint
          [ecvrf_encode_to_curve_solana M pk alpha, p.gamma] = none := by
        rw [mapOption, hga]
        rcases M.decodePoint (ecvrf_encode_to_curve_solana M pk alpha)
          with _ | q <;> rfl
      have hm2 : multiscalar_multiply_ristretto M
          [p.s, negate_scalar (p.c ++ List.replicate 16 0)]
          [ecvrf_encode_to_curve_solana M pk alpha, p.gamma] = none := by
        rw [multiscalar_multiply_ristretto, hpts]
        rcases mapOption scalarFromCanonical
            [p.s, negate_scalar (p.c ++ List.replicate 16 0)] with _ | as <;>
          rfl
      rw [hm2]

theorem C4_bad_gamma_or_s_rejected_amended_witness :
    ecvrf_verify cModel BASEPOINT_BYTES [7]
      ⟨List.replicate 32 0, List.replicate 16 0, List.replicate 32 255⟩ =
        .err .invalidInput :=
  C4_bad_gamma_or_s_rejected_amended cModel BASEPOINT_BYTES [7]
    ⟨List.replicate 32 0, List.replicate 16 0, List.replicate 32 255⟩
    (Or.inl (by decide))

/- ## C1: completeness of verify ∘ prove -/
theorem multiply_ristretto_eq {M : Model} {s P : List Nat} {a : Nat} {Q : Pt}
    (hs : scalarFromCanonical s = some a) (hP : M.decodePoint P = some Q) :
    multiply_ristretto M s P = some (M.encodePoint ((a : Pt) * Q)) := by
  rw [multiply_ristretto, hs, hP]

theorem multiscalar_pair_eq {M : Model} {s1 s2 P1 P2 : List Nat}
    {a1 a2 : Nat} {Q1 Q2 : Pt}
    (h1 : scalarFromCanonical s1 = some a1)
    (h2 : scalarFromCanonical s2 = some a2)
    (hP1 : M.decodePoint P1 = some Q1) (hP2 : M.decodePoint P2 = some Q2) :
    multiscalar_multiply_ristretto M [s1, s2] [P1, P2] =
      some (M.encodePoint ((a1 : Pt) * Q1 + (a2 : Pt) * Q2)) := by
  rw [multiscalar_multiply_ristretto]
  rw [show mapOption scalarFromCanonical [s1, s2] = some [a1, a2] by
    simp [mapOption, h1, h2]]
  rw [show mapOption M.decodePoint [P1, P2] = some [Q1, Q2] by
    simp [mapOption, hP1, hP2]]
  simp

theorem castSubL {c : Nat} (h : c ≤ L) : ((L - c : Nat) : Pt) = -(c : Pt) := by
  rw [Nat.cast_sub h, ZMod.natCast_self]
  ring

set_option maxHeartbeats 1000000 in

/-- C1 (amended): for every keypair with pk = sk·B, canonical sk and
pk ≠ identity (the all-zero encoding), `prove` succeeds and `verify`
accepts the fresh proof, provided the derived 16-byte challenge is
nonzero (a zero challenge would make `negate_scalar` return the
non-canonical encoding of ℓ, which the multiscalar multiplication
rejects). -/
theorem C1_prove_verify_amended (M : Model)
    (hde : ∀ P, M.decodePoint (M.encodePoint P) = some P)
    (hel : ∀ P, (M.encodePoint P).length = 32)
    (hbp : M.decodePoint BASEPOINT_BYTES = some M.bpVal)
    (hlen : ∀ m, (M.sha512 m).length = 64)
    (hbytes : ∀ m, ∀ b ∈ M.sha512 m, b < 256)
    (kp : ECVRFKeyPair) (alpha : List Nat)
    (hpk : kp.pk = M.encodePoint ((leVal kp.sk : Pt) * M.bpVal))
    (hskl : kp.sk.length = 32) (hskc : leVal kp.sk < L)
    (hpknz : kp.pk ≠ List.replicate 32 0)
    (p : ECVRFProof) (hp : ecvrf_prove M kp alpha = some p)
    (hc : leVal p.c ≠ 0) :
    ecvrf_verify M kp.pk alpha p = .ok := by
  obtain ⟨hQ, hh0⟩ := encodeLoop_decodable M hbp 256
    (initial_point_bytes M kp.pk alpha)
  have hh : M.decodePoint (ecvrf_encode_to_curve_solana M kp.pk alpha) =
      some hQ := hh0
  have hskSome : scalarFromCanonical kp.sk = some (leVal kp.sk) := by
    rw [scalarFromCanonical, if_pos ⟨hskl, hskc⟩]
  have hkvlt : leVal (ecvrf_nonce_generation M kp.sk alpha) < L := by
    rw [ecvrf_nonce_generation,
      leVal_leBytes_of_lt (lt_trans (Nat.mod_lt _ (by decide)) L_lt_pow)]
    exact Nat.mod_lt _ (by decide)
  have hkSome : scalarFromCanonical (ecvrf_nonce_generation M kp.sk alpha) =
      some (leVal (ecvrf_nonce_generation M kp.sk alpha)) := by
    rw [scalarFromCanonical,
      if_pos ⟨by rw [ecvrf_nonce_generation, leBytes_length], hkvlt⟩]
  have hgam := multiply_ristretto_eq (M := M) hskSome hh
  have hU := multiply_ristretto_eq (M := M) hkSome hbp
  have hV := multiply_ristretto_eq (M := M) hkSome hh
  rw [ecvrf_prove, hgam] at hp
  simp only [Option.some_bind] at hp
  rw [hU] at hp
  simp only [Option.some_bind] at hp
  rw [hV] at hp
  simp only [Option.some_bind, Option.some.injEq] at hp
  have hpg : p.gamma = M.encodePoint ((leVal kp.sk : Pt) * hQ) := by
    rw [← hp]
  have hpcEq : p.c = ecvrf_challenge_generation M [kp.pk,
      ecvrf_encode_to_curve_solana M kp.pk alpha,
      M.encodePoint ((leVal kp.sk : Pt) * hQ),
      M.encodePoint
        ((leVal (ecvrf_nonce_generation M kp.sk alpha) : Pt) * M.bpVal),
      M.encodePoint
        ((leVal (ecvrf_nonce_generation M kp.sk alpha) : Pt) * hQ)] := by
    rw [← hp]
  have hpsEq : p.s = leBytes 32
      ((leVal (ecvrf_nonce_generation M kp.sk alpha) % L +
        (leVal (p.c ++ List.replicate 16 0) % L) * (leVal kp.sk % L)) % L) := by
    rw [hpcEq, ← hp]
  have hClen : p.c.length = 16 := by
    rw [hpcEq, ecvrf_challenge_generation, List.length_take, hlen]
    decide
  have hCbytes : ∀ b ∈ p.c, b < 256 := by
    rw [hpcEq, ecvrf_challenge_generation]
    exact fun b hb => hbytes _ b (List.take_subset _ _ hb)
  have hCL : leVal p.c < L := by
    have h1 := leVal_lt p.c hCbytes
    rw [hClen] at h1
    exact lt_trans h1 (by decide)
  have hCpadv : leVal (p.c ++ List.replicate 16 0) = leVal p.c := by
    rw [leVal_append, leVal_replicate_zero, Nat.mul_zero, Nat.add_zero]
  have hCpadlen : (p.c ++ List.replicate 16 0).length = 32 := by
    rw [List.length_append, hClen, List.length_replicate]
  have hCpadbytes : ∀ b ∈ p.c ++ List.replicate 16 0, b < 256 := by
    intro b hb
    rcases List.mem_append.mp hb with h | h
    · exact hCbytes b h
    · have := List.eq_of_mem_replicate h
      omega
  have hncv : leVal (negate_scalar (p.c ++ List.replicate 16 0)) =
      L - leVal p.c := by
    rw [negate_scalar_leVal _ hCpadlen hCpadbytes (by rw [hCpadv]; omega),
      hCpadv]
  have hncSome : scalarFromCanonical
      (negate_scalar (p.c ++ List.replicate 16 0)) =
        some (L - leVal p.c) := by
    rw [scalarFromCanonical,
      if_pos ⟨negate_scalar_length _, by rw [hncv]; omega⟩, hncv]
  have hsv : leVal p.s = (leVal (ecvrf_nonce_generation M kp.sk alpha) % L +
      (leVal (p.c ++ List.replicate 16 0) % L) * (leVal kp.sk % L)) % L := by
    rw [hpsEq, leVal_leBytes_of_lt (lt_trans (Nat.mod_lt _ (by decide))
      L_lt_pow)]
  have hsSome : scalarFromCanonical p.s = some (leVal p.s) := by
    rw [scalarFromCanonical, if_pos ⟨by rw [hpsEq, leBytes_length],
      by rw [hsv]; exact Nat.mod_lt _ (by decide)⟩]
  have hdk : M.decodePoint kp.pk = some ((leVal kp.sk : Pt) * M.bpVal) := by
    rw [hpk]; exact hde _
  have hdg : M.decodePoint p.gamma = some ((leVal kp.sk : Pt) * hQ) := by
    rw [hpg]; exact hde _
  have hu := multiscalar_pair_eq (M := M) hsSome hncSome hbp hdk
  have hv2 := multiscalar_pair_eq (M := M) hsSome hncSome hh hdg
  have hcast : ((leVal p.s : Nat) : Pt) =
      (leVal (ecvrf_nonce_generation M kp.sk alpha) : Pt) +
        (leVal p.c : Pt) * (leVal kp.sk : Pt) := by
    rw [hsv, castModL, Nat.cast_add, Nat.cast_mul, castModL, castModL,
      castModL, hCpadv]
  have hUeq : M.encodePoint ((leVal p.s : Pt) * M.bpVal +
      ((L - leVal p.c : Nat) : Pt) * ((leVal kp.sk : Pt) * M.bpVal)) =
      M.encodePoint
        ((leVal (ecvrf_nonce_generation M kp.sk alpha) : Pt) * M.bpVal) :=
    congrArg M.encodePoint (by rw [hcast, castSubL (le_of_lt hCL)]; ring)
  have hVeq : M.encodePoint ((leVal p.s : Pt) * hQ +
      ((L - leVal p.c : Nat) : Pt) * ((leVal kp.sk : Pt) * hQ)) =
      M.encodePoint
        ((leVal (ecvrf_nonce_generation M kp.sk alpha) : Pt) * hQ) :=
    congrArg M.encodePoint (by rw [hcast, castSubL (le_of_lt hCL)]; ring)
  have hpkl : kp.pk.length = 32 := by rw [hpk]; exact hel _
  have hguard : ¬(!(pk_valid kp.pk)) = true := by
    rw [pk_valid]
    simp only [Bool.not_not]
    intro hall
    exact hpknz (List.eq_replicate_iff.mpr ⟨hpkl,
      fun b hb => by simpa using List.all_eq_true.mp hall b hb⟩)
  rw [ecvrf_verify, if_neg hguard]
  simp only [hu, hv2]
  rw [hUeq, hVeq, hpg, ← hpcEq]
  simp

theorem cModel_decode_encode (P : Pt) :
    cModel.decodePoint (cModel.encodePoint P) = some P := by
  show cDec (cEnc P) = some P
  simp only [cDec, cEnc, leBytes_length, if_true]
  rw [leVal_leBytes_of_lt (lt_trans (ZMod.val_lt P) L_lt_pow),
    ZMod.natCast_rightInverse P]

theorem C1_prove_verify_amended_witness :
    ecvrf_verify cModel (keypair_from_sk cModel (leBytes 32 1)).pk [5]
      ((ecvrf_prove cModel (keypair_from_sk cModel (leBytes 32 1)) [5]).getD
        ⟨[], [], []⟩) = .ok :=
  C1_prove_verify_amended cModel cModel_decode_encode
    (fun _P => leBytes_length 32 _)
    (by decide)
    (fun _m => rfl)
    (by
      intro m b hb
      have hb1 : b = 1 := List.eq_of_mem_replicate hb
      omega)
    (keypair_from_sk cModel (leBytes 32 1)) [5]
    rfl (by decide) (by decide) (by decide)
    ((ecvrf_prove cModel (keypair_from_sk cModel (leBytes 32 1)) [5]).getD
      ⟨[], [], []⟩)
    (by decide) (by decide)

/-- C1 counterexample: the keypair derived from sk = 0 satisfies
pk = sk·B (pk is the identity, whose canonical encoding is all-zero);
`prove` succeeds on it, yet `verify` rejects the freshly generated proof
(the `valid()` check refuses the all-zero public key before any hashing),
so `verify(pk, alpha, prove(sk, alpha))` is not Ok for every keypair. -/
theorem C1_zero_key_counterexample :
    (keypair_from_sk cModel (leBytes 32 0)).pk =
      cModel.encodePoint
        ((leVal (keypair_from_sk cModel (leBytes 32 0)).sk : Pt) *
          cModel.bpVal) ∧
    ecvrf_prove cModel (keypair_from_sk cModel (leBytes 32 0)) [] =
      some ((ecvrf_prove cModel (keypair_from_sk cModel (leBytes 32 0))
        []).getD ⟨[], [], []⟩) ∧
    ecvrf_verify cModel (keypair_from_sk cModel (leBytes 32 0)).pk []
      ((ecvrf_prove cModel (keypair_from_sk cModel (leBytes 32 0)) []).getD
        ⟨[], [], []⟩) ≠ .ok := by decide

end KamuiVrf
